import Mathlib

set_option maxHeartbeats 1000000

/-!
Shallow embedding of the HMM model-selection module
(P-4-Recognizer/my_model_selectors.py) and proofs about its four selection
strategies (SelectorConstant, SelectorBIC, SelectorDIC, SelectorCV).

Modelling conventions:
- Python floats (log-likelihoods, scores) are modelled as rationals: the
  properties under study concern control flow and candidate ranking, not
  floating-point rounding.
- A Python expression that can raise is modelled as an Option value, with
  none standing for "an exception was raised"; the bare except clauses of the
  source catch every exception, which is modelled by matching on none.
- The hmmlearn GaussianHMM fit runs with a fixed seed (random_state=14),
  diagonal covariance and n_iter=1000, so fitting is a deterministic function
  of the state count and the training data; the environment decides whether a
  given fit converges and what a model scores on given data.
-/

/-- Data of one category (word): its list of example sequences (each sequence a
list of frames, each frame a list of feature values), together with the
concatenated observation array X and the per-sequence lengths list, exactly the
two dictionary entries all_word_sequences[w] and all_word_Xlengths[w] used by
the source. -/
structure WordData where
  sequences : List (List (List ℚ))
  X : List (List ℚ)
  lengths : List ℕ
deriving DecidableEq

/-- Trained GaussianHMM, identified by its fit inputs: with the fixed seed,
fitting is deterministic, so a trained model is represented by its state count
and the data it was trained on; its scoring behaviour is supplied by the
environment oracle. -/
structure Model where
  nStates : ℕ
  trainX : List (List ℚ)
  trainLengths : List ℕ
deriving DecidableEq

/-- External collaborators of the selector (the HMM engine and numpy):
fitOK says whether GaussianHMM(n).fit converges on the given (X, lengths)
data (false means fit raises); scoreFn is Model.score, returning the
log-likelihood or none when scoring raises; logNat models np.log on a natural
number argument (kept abstract, since it is transcendental). -/
structure Env where
  fitOK : ℕ → List (List ℚ) → List ℕ → Bool
  scoreFn : Model → List (List ℚ) → List ℕ → Option ℚ
  logNat : ℕ → ℚ

/-- GaussianHMM(n_components, covariance_type=diag, n_iter=1000,
random_state=14).fit(x, lengths): the trained model, or none when fitting
raises. -/
def fitHMM (env : Env) (numStates : ℕ) (x : List (List ℚ)) (lengths : List ℕ) :
    Option Model :=
  if env.fitOK numStates x lengths then some ⟨numStates, x, lengths⟩ else none

/-- State of a ModelSelector after __init__. The words and hwords dictionaries
of the source are modelled as one association list from word to its data (the
two dictionaries are built over the same keys); sequences, X and lengths hold
the entries for this_word. random_state and verbose are omitted: the seed is
fixed inside fitHMM and verbose only prints diagnostics. -/
structure Selector where
  corpus : List (String × WordData)
  this_word : String
  sequences : List (List (List ℚ))
  X : List (List ℚ)
  lengths : List ℕ
  n_constant : ℕ
  min_n : ℕ
  max_n : ℕ

/-- ModelSelector.__init__: look this_word up in the corpus dictionaries and
store its sequences and (X, lengths); none models the KeyError on an unknown
category. -/
def mkSelector (corpus : List (String × WordData)) (w : String)
    (n_constant min_n max_n : ℕ) : Option Selector :=
  match corpus.find? (fun p => p.1 == w) with
  | none => none
  | some p =>
    some ⟨corpus, w, p.2.sequences, p.2.X, p.2.lengths, n_constant, min_n, max_n⟩

/-- ModelSelector.base_model: fit at num_states on the whole category data,
catching every exception and returning the None sentinel instead. -/
def base_model (env : Env) (s : Selector) (numStates : ℕ) : Option Model :=
  fitHMM env numStates s.X s.lengths

/-- Candidate list range(self.min_n_components, self.max_n_components + 1). -/
def nRange (s : Selector) : List ℕ :=
  List.range' s.min_n (s.max_n + 1 - s.min_n)

/-- SelectorConstant.select: return base_model(n_constant); no search and no
scoring. -/
def selectConstant (env : Env) (s : Selector) : Option Model :=
  base_model env s s.n_constant

/-- Body of one SelectorBIC loop iteration: base_hmm = self.base_model(n);
logL = base_hmm.score(self.X, self.lengths) (which is an AttributeError when
base_hmm is the None sentinel, and may itself raise); logN = np.log(len(X));
p = n*n + 2*n*len(X[0]) - 1 (an IndexError on empty X);
score = -2*logL + p*logN. Returns (score, base_hmm), or none when the
iteration raises. -/
def bicIter (env : Env) (s : Selector) (n : ℕ) : Option (ℚ × Model) :=
  match base_model env s n with
  | none => none
  | some base_hmm =>
    match env.scoreFn base_hmm s.X s.lengths with
    | none => none
    | some logL =>
      match s.X.head? with
      | none => none
      | some x0 =>
        some (-2 * logL + ((n : ℚ) * n + 2 * n * x0.length - 1)
          * env.logNat s.X.length, base_hmm)

/-- Loop of the try-block of SelectorBIC.select over the remaining candidates,
carrying best_score (none models the initial float Inf: any score beats it)
and best_model. Returns some best_model on normal completion of the loop, none
when an iteration raises. -/
def bicLoop (env : Env) (s : Selector) :
    List ℕ → Option ℚ → Option Model → Option (Option Model)
  | [], _, best_model => some best_model
  | n :: rest, best_score, best_model =>
    match bicIter env s n with
    | none => none
    | some (score, base_hmm) =>
      match best_score with
      | none => bicLoop env s rest (some score) (some base_hmm)
      | some b =>
        if score < b then bicLoop env s rest (some score) (some base_hmm)
        else bicLoop env s rest best_score best_model

/-- SelectorBIC.select: run the scoring loop over [min_n .. max_n]; any
exception inside the try-block makes the whole search fall back to
base_model(n_constant). -/
def selectBIC (env : Env) (s : Selector) : Option Model :=
  match bicLoop env s (nRange s) none none with
  | some best_model => best_model
  | none => base_model env s s.n_constant

/-- Inner loop of SelectorDIC.select: for every word of the corpus other than
this_word, append base_hmm.score(self.hwords[word]) to the scores list; raises
(none) as soon as base_hmm is the None sentinel or one of the scores raises. -/
def dicOtherScores (env : Env) (s : Selector) (base_hmm : Option Model) :
    List (String × WordData) → Option (List ℚ)
  | [] => some []
  | (word, wd) :: rest =>
    if word = s.this_word then dicOtherScores env s base_hmm rest
    else
      match base_hmm with
      | none => none
      | some m =>
        match env.scoreFn m wd.X wd.lengths with
        | none => none
        | some v =>
          match dicOtherScores env s base_hmm rest with
          | none => none
          | some vs => some (v :: vs)

/-- Expression dic_score = score - np.mean(base_hmm) of the source, where
score is the model object base_hmm itself (score = base_hmm on the previous
line) and np.mean is applied to the model object, not to the collected scores
list. np.mean wraps its argument in a 0-d object array and divides by the
element count, and GaussianHMM supports neither division nor subtraction (nor
does None), so the expression raises TypeError for every value of base_hmm.
Modelled as always none; the scores list collected just before is never
used. -/
def dicScoreExpr (_base_hmm : Option Model) : Option ℚ := none

/-- Body of one SelectorDIC loop iteration. -/
def dicIter (env : Env) (s : Selector) (n : ℕ) : Option (ℚ × Option Model) :=
  let base_hmm := base_model env s n
  match dicOtherScores env s base_hmm s.corpus with
  | none => none
  | some _scores =>
    match dicScoreExpr base_hmm with
    | none => none
    | some dic_score => some (dic_score, base_hmm)

/-- Loop of the try-block of SelectorDIC.select (best_score none models the
initial float minus-Inf: any score beats it; a strictly higher dic_score
wins; best_model is assigned the raw base_hmm value). -/
def dicLoop (env : Env) (s : Selector) :
    List ℕ → Option ℚ → Option Model → Option (Option Model)
  | [], _, best_model => some best_model
  | n :: rest, best_score, best_model =>
    match dicIter env s n with
    | none => none
    | some (dic_score, base_hmm) =>
      match best_score with
      | none => dicLoop env s rest (some dic_score) base_hmm
      | some b =>
        if b < dic_score then dicLoop env s rest (some dic_score) base_hmm
        else dicLoop env s rest best_score best_model

/-- SelectorDIC.select with its whole-search fallback to
base_model(n_constant). -/
def selectDIC (env : Env) (s : Selector) : Option Model :=
  match dicLoop env s (nRange s) none none with
  | some best_model => best_model
  | none => base_model env s s.n_constant

/-- Modelled from the spec: the external utility combine_sequences of
asl_utils (sequence bookkeeping consumed via a simple contract; its code is
not under src): concatenate the sequences selected by the index list and
return the new (X, lengths) pair. -/
def combine_sequences (idx : List ℕ) (seqs : List (List (List ℚ))) :
    List (List ℚ) × List ℕ :=
  ((idx.map (fun i => seqs.getD i [])).flatten,
   idx.map (fun i => (seqs.getD i []).length))

/-- Modelled from the spec: the SequencePartitioner (sklearn KFold without
shuffle): fold i of k over m samples holds out the i-th contiguous block of
indices (the first m mod k blocks are one element larger) and trains on the
ascending complement. Returns the (train_indices, test_indices) pair. -/
def kfoldFold (m k i : ℕ) : List ℕ × List ℕ :=
  let q := m / k
  let r := m % k
  let start := i * q + min i r
  let size := q + (if i < r then 1 else 0)
  ((List.range m).filter (fun j => decide (j < start ∨ start + size ≤ j)),
   List.range' start size)

/-- Modelled from the spec: KFold(n_splits=k).split over m samples yields the
k folds in order. -/
def kfoldFolds (m k : ℕ) : List (List ℕ × List ℕ) :=
  (List.range k).map (kfoldFold m k)

/-- np.average of the collected fold scores: the arithmetic mean. The empty
case cannot arise in SelectorCV (KFold yields n_splits at least 2 folds when
it constructs at all); it is modelled as none. -/
def npAverage (l : List ℚ) : Option ℚ :=
  match l with
  | [] => none
  | _ => some (l.sum / (l.length : ℚ))

/-- Fold loop of SelectorCV.select for one candidate n: per fold, fit a fresh
GaussianHMM directly on the combined training-fold sequences (this fit is NOT
wrapped by base_model, so its exceptions propagate), score the combined
held-out sequences, and append the log-likelihood; the base_hmm variable keeps
the model of the most recent fold. Returns (scores, last fitted model), or
none when any fold raises. -/
def cvFoldLoop (env : Env) (s : Selector) (n : ℕ) :
    List (List ℕ × List ℕ) → Option Model → Option (List ℚ × Option Model)
  | [], base_hmm => some ([], base_hmm)
  | (train_idx, test_idx) :: rest, _prev =>
    let tr := combine_sequences train_idx s.sequences
    match fitHMM env n tr.1 tr.2 with
    | none => none
    | some base_hmm =>
      let te := combine_sequences test_idx s.sequences
      match env.scoreFn base_hmm te.1 te.2 with
      | none => none
      | some logL =>
        match cvFoldLoop env s n rest (some base_hmm) with
        | none => none
        | some (scores, last) => some (logL :: scores, last)

/-- Body of one SelectorCV loop iteration: construct
KFold(n_splits=splits, random_state=self.random_state) (a ValueError, hence
none, when splits is at most 1), run the folds over self.sequences, and take
np.average of the held-out scores. Returns (score, model of the last fold). -/
def cvIter (env : Env) (s : Selector) (splits n : ℕ) : Option (ℚ × Model) :=
  if splits ≤ 1 then none
  else
    match cvFoldLoop env s n (kfoldFolds s.sequences.length splits) none with
    | none => none
    | some (scores, base_hmm) =>
      match npAverage scores with
      | none => none
      | some score =>
        match base_hmm with
        | none => none
        | some m => some (score, m)

/-- Loop of the try-block of SelectorCV.select (best_score none models the
initial float minus-Inf; a strictly higher average wins). -/
def cvLoop (env : Env) (s : Selector) (splits : ℕ) :
    List ℕ → Option ℚ → Option Model → Option (Option Model)
  | [], _, best_model => some best_model
  | n :: rest, best_score, best_model =>
    match cvIter env s splits n with
    | none => none
    | some (score, base_hmm) =>
      match best_score with
      | none => cvLoop env s splits rest (some score) (some base_hmm)
      | some b =>
        if b < score then cvLoop env s splits rest (some score) (some base_hmm)
        else cvLoop env s splits rest best_score best_model

/-- SelectorCV.select: splits = min(3, len(self.sequences)) is computed before
the try-block; any exception inside the loop falls back to
base_model(n_constant). -/
def selectCV (env : Env) (s : Selector) : Option Model :=
  let splits := min 3 s.sequences.length
  match cvLoop env s splits (nRange s) none none with
  | some best_model => best_model
  | none => base_model env s s.n_constant

/-- Reference strict-improvement scan used to characterise the selection
loops: process candidates left to right, replacing the incumbent
(value, index) pair only when lt judges the new value strictly better; none is
the initial no-incumbent state. -/
def scanBest (lt : ℚ → ℚ → Prop) [DecidableRel lt] (f : ℕ → ℚ) :
    List ℕ → Option (ℚ × ℕ) → Option (ℚ × ℕ)
  | [], acc => acc
  | n :: rest, acc =>
    match acc with
    | none => scanBest lt f rest (some (f n, n))
    | some (b, i) =>
      if lt (f n) b then scanBest lt f rest (some (f n, n))
      else scanBest lt f rest (some (b, i))

/-- BIC score formula of the claim: BIC(n) = -2*logL(n) + p(n)*log(N) with
p(n) = n^2 + 2*n*d - 1, N the number of observation frames and d the feature
dimensionality. -/
def bicFormula (env : Env) (s : Selector) (logL : ℕ → ℚ) (d n : ℕ) : ℚ :=
  -2 * logL n + ((n : ℚ) * n + 2 * n * d - 1) * env.logNat s.X.length

/-- Last element of a list via foldl, with default. -/
def lastD {α : Type _} (l : List α) (d : α) : α :=
  l.foldl (fun _x a => a) d

/-- Folds SelectorCV iterates for a given selector:
KFold(min(3, len(sequences))).split(sequences). -/
def cvFoldsOf (s : Selector) : List (List ℕ × List ℕ) :=
  kfoldFolds s.sequences.length (min 3 s.sequences.length)

/-- Last fold of the cross-validation fold sequence. -/
def cvLastFold (s : Selector) : List ℕ × List ℕ :=
  lastD (cvFoldsOf s) ([], [])

/-- Combined training data of the last fold: the data the model returned by a
completed SelectorCV search was actually trained on. -/
def cvLastTrain (s : Selector) : List (List ℚ) × List ℕ :=
  combine_sequences (cvLastFold s).1 s.sequences

/-- Average held-out log-likelihood of candidate n across the folds, given the
per-fold held-out scores g. -/
def cvAvg (s : Selector) (g : ℕ → List ℕ × List ℕ → ℚ) (n : ℕ) : ℚ :=
  (((cvFoldsOf s).map (g n)).sum) / ((((cvFoldsOf s).map (g n)).length : ℕ) : ℚ)

/-- Example category BOOK: two sequences of one frame each, one feature. -/
def wdBook : WordData := ⟨[[[1]], [[2]]], [[1], [2]], [1, 1]⟩

/-- Example second category CHOC: one sequence of one frame. -/
def wdChoc : WordData := ⟨[[[5]]], [[5]], [1]⟩

/-- Example two-word corpus. -/
def corpus2 : List (String × WordData) := [("BOOK", wdBook), ("CHOC", wdChoc)]

/-- Example selector for BOOK with n_constant 3 and range [2, 4]. -/
def selBook : Selector :=
  ⟨corpus2, "BOOK", wdBook.sequences, wdBook.X, wdBook.lengths, 3, 2, 4⟩

/-- Selector for BOOK with the degenerate configuration
min_n = max_n = n_constant = 3. -/
def selBook333 : Selector :=
  ⟨corpus2, "BOOK", wdBook.sequences, wdBook.X, wdBook.lengths, 3, 3, 3⟩

/-- Selector for BOOK with the invalid range min_n = 5 > 2 = max_n. -/
def selBookBad : Selector :=
  ⟨corpus2, "BOOK", wdBook.sequences, wdBook.X, wdBook.lengths, 3, 5, 2⟩

/-- Environment in which every fit converges and a model scores any data as
its own state count (a simple deterministic oracle), with np.log interpreted
as the zero function. -/
def envAll : Env := ⟨fun _ _ _ => true, fun m _ _ => some ((m.nStates : ℚ)), fun _ => 0⟩

/-- Environment in which every fit fails. -/
def envNone : Env := ⟨fun _ _ _ => false, fun _ _ _ => none, fun _ => 0⟩

/-- Environment in which fitting fails exactly at 2 states, and a model scores
10 when it has 4 states and 0 otherwise, so that candidate 4 has the strictly
best (lowest) BIC among the candidates that fit. -/
def envSkip2 : Env :=
  ⟨fun n _ _ => decide (n ≠ 2),
   fun m _ _ => some (if m.nStates = 4 then 10 else 0),
   fun _ => 0⟩

/-- Environment in which fitting succeeds exactly at 3 states and every score
is 0: the stub of the fallback-invariant claim with n_constant = 3. -/
def envOnly3 : Env :=
  ⟨fun n _ _ => decide (n = 3), fun _ _ _ => some 0, fun _ => 0⟩

/-- Membership in the candidate range is exactly the interval
[min_n, max_n]. -/
theorem mem_nRange {s : Selector} {n : ℕ} :
    n ∈ nRange s ↔ s.min_n ≤ n ∧ n ≤ s.max_n := by
  simp only [nRange, List.mem_range'_1]
  omega

/-- The candidate range is strictly ascending. -/
theorem nRange_pairwise (s : Selector) : (nRange s).Pairwise (· < ·) :=
  List.pairwise_lt_range' _ _

/-- The candidate range is nonempty for a valid configuration. -/
theorem nRange_ne_nil {s : Selector} (h : s.min_n ≤ s.max_n) :
    nRange s ≠ [] := by
  intro hh
  have hl := congrArg List.length hh
  rw [nRange, List.length_range'] at hl
  simp at hl
  omega

/-- Accumulator invariant of scanBest: starting from incumbent (b, i) placed
before every remaining candidate of a strictly ascending list, the scan ends
with an incumbent that no candidate strictly beats, and on ties the earliest
candidate wins. -/
theorem scanBest_acc (lt : ℚ → ℚ → Prop) [DecidableRel lt]
    (hirr : ∀ a, ¬ lt a a)
    (htr : ∀ a b c, lt a b → ¬ lt c b → ¬ lt c a)
    (htt : ∀ a b c, lt a b → lt b c → lt a c)
    (f : ℕ → ℚ) (l : List ℕ) :
    ∀ (b : ℚ) (i : ℕ), (∀ n ∈ l, i < n) → l.Pairwise (· < ·) →
      ∃ c j, scanBest lt f l (some (b, i)) = some (c, j) ∧
        ((j = i ∧ c = b) ∨ (j ∈ l ∧ c = f j ∧ lt c b)) ∧
        (∀ n ∈ l, ¬ lt (f n) c) ∧
        (∀ n ∈ l, f n = c → j ≤ n) := by
  induction l with
  | nil =>
    intro b i _ _
    exact ⟨b, i, rfl, Or.inl ⟨rfl, rfl⟩, by simp, by simp⟩
  | cons n rest ih =>
    intro b i hpos hpair
    have hposr : ∀ m ∈ rest, n < m := fun m hm => (List.pairwise_cons.mp hpair).1 m hm
    have hpairr : rest.Pairwise (· < ·) := (List.pairwise_cons.mp hpair).2
    by_cases h : lt (f n) b
    · obtain ⟨c, j, hrun, hcase, hmin, htie⟩ := ih (f n) n hposr hpairr
      refine ⟨c, j, ?_, ?_, ?_, ?_⟩
      · rw [scanBest, if_pos h]; exact hrun
      · rcases hcase with ⟨hj, hc⟩ | ⟨hj, hc, hlt⟩
        · exact Or.inr ⟨by simp [hj], by rw [hc, hj], by rw [hc]; exact h⟩
        · exact Or.inr ⟨List.mem_cons_of_mem _ hj, hc, htt _ _ _ hlt h⟩
      · intro m hm
        rcases List.mem_cons.mp hm with rfl | hm
        · rcases hcase with ⟨_, hc⟩ | ⟨_, _, hlt⟩
          · rw [hc]; exact hirr _
          · exact htr c (f m) (f m) hlt (hirr _)
        · exact hmin m hm
      · intro m hm heq
        rcases List.mem_cons.mp hm with rfl | hm
        · rcases hcase with ⟨hj, _⟩ | ⟨_, _, hlt⟩
          · exact hj ▸ le_refl m
          · exact absurd (heq ▸ hlt) (hirr _)
        · exact htie m hm heq
    · obtain ⟨c, j, hrun, hcase, hmin, htie⟩ :=
        ih b i (fun m hm => hpos m (List.mem_cons_of_mem _ hm)) hpairr
      refine ⟨c, j, ?_, ?_, ?_, ?_⟩
      · rw [scanBest, if_neg h]; exact hrun
      · rcases hcase with hc | ⟨hj, hc, hlt⟩
        · exact Or.inl hc
        · exact Or.inr ⟨List.mem_cons_of_mem _ hj, hc, hlt⟩
      · intro m hm
        rcases List.mem_cons.mp hm with rfl | hm
        · rcases hcase with ⟨_, hc⟩ | ⟨_, _, hlt⟩
          · rw [hc]; exact h
          · exact htr c b (f m) hlt h
        · exact hmin m hm
      · intro m hm heq
        rcases List.mem_cons.mp hm with rfl | hm
        · rcases hcase with ⟨hj, _⟩ | ⟨_, _, hlt⟩
          · exact le_of_lt (hj ▸ hpos m (List.mem_cons_self _ _))
          · exact absurd (heq ▸ hlt) h
        · exact htie m hm heq

/-- Characterisation of scanBest from the empty incumbent on a nonempty
strictly ascending candidate list: it returns the value and index of the
first-encountered best candidate. -/
theorem scanBest_spec (lt : ℚ → ℚ → Prop) [DecidableRel lt]
    (hirr : ∀ a, ¬ lt a a)
    (htr : ∀ a b c, lt a b → ¬ lt c b → ¬ lt c a)
    (htt : ∀ a b c, lt a b → lt b c → lt a c)
    (f : ℕ → ℚ) (l : List ℕ) (hne : l ≠ []) (hpair : l.Pairwise (· < ·)) :
    ∃ j ∈ l, scanBest lt f l none = some (f j, j) ∧
      (∀ n ∈ l, ¬ lt (f n) (f j)) ∧ (∀ n ∈ l, f n = f j → j ≤ n) := by
  match l with
  | [] => exact absurd rfl hne
  | n :: rest =>
    have hposr : ∀ m ∈ rest, n < m := fun m hm => (List.pairwise_cons.mp hpair).1 m hm
    have hpairr : rest.Pairwise (· < ·) := (List.pairwise_cons.mp hpair).2
    obtain ⟨c, j, hrun, hcase, hmin, htie⟩ :=
      scanBest_acc lt hirr htr htt f rest (f n) n hposr hpairr
    have hstep : scanBest lt f (n :: rest) none = scanBest lt f rest (some (f n, n)) := rfl
    rcases hcase with ⟨hj, hc⟩ | ⟨hj, hc, hlt⟩
    · subst hj
      refine ⟨j, List.mem_cons_self _ _, by rw [hstep, hrun, hc], ?_, ?_⟩
      · intro m hm
        rcases List.mem_cons.mp hm with rfl | hm
        · exact hirr _
        · exact hc ▸ hmin m hm
      · intro m hm _
        rcases List.mem_cons.mp hm with rfl | hm
        · exact le_refl _
        · exact le_of_lt (hposr m hm)
    · refine ⟨j, List.mem_cons_of_mem _ hj, by rw [hstep, hrun, hc], ?_, ?_⟩
      · intro m hm
        rw [← hc]
        rcases List.mem_cons.mp hm with rfl | hm
        · exact htr c (f m) (f m) hlt (hirr _)
        · exact hmin m hm
      · intro m hm heq
        rw [← hc] at heq
        rcases List.mem_cons.mp hm with rfl | hm
        · exact absurd (heq ▸ hlt) (hirr _)
        · exact htie m hm heq

/-- The shape of a successful model fit: the model records the requested state
count and the training data. -/
theorem fitHMM_eq {env : Env} {numStates : ℕ} {x : List (List ℚ)}
    {lengths : List ℕ} {m : Model} (h : fitHMM env numStates x lengths = some m) :
    m = ⟨numStates, x, lengths⟩ := by
  unfold fitHMM at h
  by_cases hc : env.fitOK numStates x lengths = true
  · rw [if_pos hc] at h; exact (Option.some.inj h).symm
  · rw [if_neg hc] at h; exact absurd h (by simp)

/-- A successful BIC iteration carries the model fitted by base_model at n. -/
theorem bicIter_model {env : Env} {s : Selector} {n : ℕ} {p : ℚ × Model}
    (h : bicIter env s n = some p) : p.2 = ⟨n, s.X, s.lengths⟩ := by
  unfold bicIter at h
  cases hb : base_model env s n with
  | none => simp [hb] at h
  | some m =>
    simp only [hb] at h
    cases hs : env.scoreFn m s.X s.lengths with
    | none => simp [hs] at h
    | some logL =>
      simp only [hs] at h
      cases hx : s.X.head? with
      | none => simp [hx] at h
      | some x0 =>
        simp only [hx, Option.some.injEq] at h
        rw [← h]
        exact fitHMM_eq hb

/-- A model returned by a normally completed BIC loop is either the incoming
best_model or the model of some successful iteration for a candidate of the
list. -/
theorem bicLoop_models (env : Env) (s : Selector) :
    ∀ (l : List ℕ) (bs : Option ℚ) (bm : Option Model) (r : Option Model),
      bicLoop env s l bs bm = some r →
      r = bm ∨ ∃ n ∈ l, ∃ p, bicIter env s n = some p ∧ r = some p.2 := by
  intro l
  induction l with
  | nil =>
    intro bs bm r h
    exact Or.inl (Option.some.inj h).symm
  | cons n rest ih =>
    intro bs bm r h
    rw [bicLoop] at h
    cases hi : bicIter env s n with
    | none => simp [hi] at h
    | some p =>
      obtain ⟨score, base_hmm⟩ := p
      simp only [hi] at h
      have step :
          ∀ bs' bm', bicLoop env s rest bs' bm' = some r →
            (bm' = some base_hmm ∨ bm' = bm) →
            r = bm ∨ ∃ n' ∈ n :: rest, ∃ p, bicIter env s n' = some p ∧ r = some p.2 := by
        intro bs' bm' hrun hbm
        rcases ih bs' bm' r hrun with rfl | ⟨n', hn', p', hp', hr⟩
        · rcases hbm with rfl | rfl
          · exact Or.inr ⟨n, List.mem_cons_self _ _, (score, base_hmm), hi, rfl⟩
          · exact Or.inl rfl
        · exact Or.inr ⟨n', List.mem_cons_of_mem _ hn', p', hp', hr⟩
      cases bs with
      | none => exact step _ _ h (Or.inl rfl)
      | some b =>
        have h' : (if score < b then bicLoop env s rest (some score) (some base_hmm)
            else bicLoop env s rest (some b) bm) = some r := h
        by_cases hlt : score < b
        · rw [if_pos hlt] at h'; exact step _ _ h' (Or.inl rfl)
        · rw [if_neg hlt] at h'; exact step _ _ h' (Or.inr rfl)

/-- If any candidate of the list makes its BIC iteration raise, the whole BIC
loop raises. -/
theorem bicLoop_none_of_fail (env : Env) (s : Selector) :
    ∀ (l : List ℕ) (bs : Option ℚ) (bm : Option Model),
      (∃ n ∈ l, bicIter env s n = none) → bicLoop env s l bs bm = none := by
  intro l
  induction l with
  | nil => intro bs bm h; obtain ⟨n, hn, _⟩ := h; exact absurd hn (by simp)
  | cons n rest ih =>
    intro bs bm h
    obtain ⟨n', hn', hfail⟩ := h
    rw [bicLoop]
    cases hi : bicIter env s n with
    | none => rfl
    | some p =>
      obtain ⟨score, base_hmm⟩ := p
      have hn'rest : n' ∈ rest := by
        rcases List.mem_cons.mp hn' with rfl | hm
        · exact absurd hi (by rw [hfail]; simp)
        · exact hm
      cases bs with
      | none => exact ih _ _ ⟨n', hn'rest, hfail⟩
      | some b =>
        show (if score < b then bicLoop env s rest (some score) (some base_hmm)
            else bicLoop env s rest (some b) bm) = none
        by_cases hlt : score < b
        · rw [if_pos hlt]; exact ih _ _ ⟨n', hn'rest, hfail⟩
        · rw [if_neg hlt]; exact ih _ _ ⟨n', hn'rest, hfail⟩

/-- When every iteration of the list succeeds with score g and model M, the
BIC loop computes exactly the strict-improvement scan of g (both started at
incumbent (b, i)), returning the model at the winning index. -/
theorem bicLoop_eq_scan (env : Env) (s : Selector) (g : ℕ → ℚ) (M : ℕ → Model) :
    ∀ (l : List ℕ), (∀ n ∈ l, bicIter env s n = some (g n, M n)) →
    ∀ (b : ℚ) (i : ℕ),
      bicLoop env s l (some b) (some (M i)) =
        some (match scanBest (· < ·) g l (some (b, i)) with
              | some p => some (M p.2)
              | none => none) := by
  intro l
  induction l with
  | nil => intro _ b i; rfl
  | cons n rest ih =>
    intro H b i
    have hn := H n (List.mem_cons_self _ _)
    have Hr : ∀ m ∈ rest, bicIter env s m = some (g m, M m) :=
      fun m hm => H m (List.mem_cons_of_mem _ hm)
    rw [bicLoop, hn]
    show (if g n < b then bicLoop env s rest (some (g n)) (some (M n))
          else bicLoop env s rest (some b) (some (M i))) = _
    by_cases h : g n < b
    · rw [if_pos h, ih Hr (g n) n, scanBest, if_pos h]
    · rw [if_neg h, ih Hr b i, scanBest, if_neg h]

/-- BIC loop from the initial (Inf, None) incumbents, for a nonempty list of
all-successful iterations. -/
theorem bicLoop_none_start (env : Env) (s : Selector) (g : ℕ → ℚ) (M : ℕ → Model)
    (l : List ℕ) (H : ∀ n ∈ l, bicIter env s n = some (g n, M n)) :
    bicLoop env s l none none =
      some (match scanBest (· < ·) g l none with
            | some p => some (M p.2)
            | none => none) := by
  match l with
  | [] => rfl
  | n :: rest =>
    have hn := H n (List.mem_cons_self _ _)
    have Hr : ∀ m ∈ rest, bicIter env s m = some (g m, M m) :=
      fun m hm => H m (List.mem_cons_of_mem _ hm)
    rw [bicLoop, hn]
    show bicLoop env s rest (some (g n)) (some (M n)) = _
    rw [bicLoop_eq_scan env s g M rest Hr (g n) n]
    rfl

/-- Every DIC iteration raises: the dic_score expression is a TypeError on the
model object, whatever happened before it in the iteration. -/
theorem dicIter_none (env : Env) (s : Selector) (n : ℕ) :
    dicIter env s n = none := by
  unfold dicIter
  cases h : dicOtherScores env s (base_model env s n) s.corpus with
  | none => simp [h]
  | some vs => simp [h, dicScoreExpr]

/-- SelectorDIC.select always takes the whole-search fallback on a valid
range: it returns base_model(n_constant), exactly SelectorConstant.select. -/
theorem dic_eq_constant (env : Env) (s : Selector) (h0 : s.min_n ≤ s.max_n) :
    selectDIC env s = selectConstant env s := by
  have hsplit : nRange s = s.min_n :: List.range' (s.min_n + 1) (s.max_n - s.min_n) := by
    rw [nRange]
    have : s.max_n + 1 - s.min_n = (s.max_n - s.min_n) + 1 := by omega
    rw [this, List.range'_succ]
  rw [selectDIC, hsplit, dicLoop, dicIter_none]
  rfl

/-- A model returned by a normally completed CV loop is either the incoming
best_model or the model of some successful iteration for a candidate of the
list. -/
theorem cvLoop_models (env : Env) (s : Selector) (splits : ℕ) :
    ∀ (l : List ℕ) (bs : Option ℚ) (bm : Option Model) (r : Option Model),
      cvLoop env s splits l bs bm = some r →
      r = bm ∨ ∃ n ∈ l, ∃ p, cvIter env s splits n = some p ∧ r = some p.2 := by
  intro l
  induction l with
  | nil =>
    intro bs bm r h
    exact Or.inl (Option.some.inj h).symm
  | cons n rest ih =>
    intro bs bm r h
    rw [cvLoop] at h
    cases hi : cvIter env s splits n with
    | none => simp [hi] at h
    | some p =>
      obtain ⟨score, base_hmm⟩ := p
      simp only [hi] at h
      have step :
          ∀ bs' bm', cvLoop env s splits rest bs' bm' = some r →
            (bm' = some base_hmm ∨ bm' = bm) →
            r = bm ∨ ∃ n' ∈ n :: rest, ∃ p, cvIter env s splits n' = some p ∧ r = some p.2 := by
        intro bs' bm' hrun hbm
        rcases ih bs' bm' r hrun with rfl | ⟨n', hn', p', hp', hr⟩
        · rcases hbm with rfl | rfl
          · exact Or.inr ⟨n, List.mem_cons_self _ _, (score, base_hmm), hi, rfl⟩
          · exact Or.inl rfl
        · exact Or.inr ⟨n', List.mem_cons_of_mem _ hn', p', hp', hr⟩
      cases bs with
      | none => exact step _ _ h (Or.inl rfl)
      | some b =>
        have h' : (if b < score then cvLoop env s splits rest (some score) (some base_hmm)
            else cvLoop env s splits rest (some b) bm) = some r := h
        by_cases hlt : b < score
        · rw [if_pos hlt] at h'; exact step _ _ h' (Or.inl rfl)
        · rw [if_neg hlt] at h'; exact step _ _ h' (Or.inr rfl)

/-- If any candidate of the list makes its CV iteration raise, the whole CV
loop raises. -/
theorem cvLoop_none_of_fail (env : Env) (s : Selector) (splits : ℕ) :
    ∀ (l : List ℕ) (bs : Option ℚ) (bm : Option Model),
      (∃ n ∈ l, cvIter env s splits n = none) → cvLoop env s splits l bs bm = none := by
  intro l
  induction l with
  | nil => intro bs bm h; obtain ⟨n, hn, _⟩ := h; exact absurd hn (by simp)
  | cons n rest ih =>
    intro bs bm h
    obtain ⟨n', hn', hfail⟩ := h
    rw [cvLoop]
    cases hi : cvIter env s splits n with
    | none => rfl
    | some p =>
      obtain ⟨score, base_hmm⟩ := p
      have hn'rest : n' ∈ rest := by
        rcases List.mem_cons.mp hn' with rfl | hm
        · exact absurd hi (by rw [hfail]; simp)
        · exact hm
      cases bs with
      | none => exact ih _ _ ⟨n', hn'rest, hfail⟩
      | some b =>
        show (if b < score then cvLoop env s splits rest (some score) (some base_hmm)
            else cvLoop env s splits rest (some b) bm) = none
        by_cases hlt : b < score
        · rw [if_pos hlt]; exact ih _ _ ⟨n', hn'rest, hfail⟩
        · rw [if_neg hlt]; exact ih _ _ ⟨n', hn'rest, hfail⟩

/-- When every iteration of the list succeeds with score g and model M, the CV
loop computes the strict-improvement scan of g under the flipped order
(a strictly higher average wins). -/
theorem cvLoop_eq_scan (env : Env) (s : Selector) (splits : ℕ)
    (g : ℕ → ℚ) (M : ℕ → Model) :
    ∀ (l : List ℕ), (∀ n ∈ l, cvIter env s splits n = some (g n, M n)) →
    ∀ (b : ℚ) (i : ℕ),
      cvLoop env s splits l (some b) (some (M i)) =
        some (match scanBest (fun a c => c < a) g l (some (b, i)) with
              | some p => some (M p.2)
              | none => none) := by
  intro l
  induction l with
  | nil => intro _ b i; rfl
  | cons n rest ih =>
    intro H b i
    have hn := H n (List.mem_cons_self _ _)
    have Hr : ∀ m ∈ rest, cvIter env s splits m = some (g m, M m) :=
      fun m hm => H m (List.mem_cons_of_mem _ hm)
    rw [cvLoop, hn]
    show (if b < g n then cvLoop env s splits rest (some (g n)) (some (M n))
          else cvLoop env s splits rest (some b) (some (M i))) = _
    by_cases h : b < g n
    · rw [if_pos h, ih Hr (g n) n, scanBest, if_pos h]
    · rw [if_neg h, ih Hr b i, scanBest, if_neg h]

/-- CV loop from the initial (minus-Inf, None) incumbents, for a nonempty list
of all-successful iterations. -/
theorem cvLoop_none_start (env : Env) (s : Selector) (splits : ℕ)
    (g : ℕ → ℚ) (M : ℕ → Model)
    (l : List ℕ) (H : ∀ n ∈ l, cvIter env s splits n = some (g n, M n)) :
    cvLoop env s splits l none none =
      some (match scanBest (fun a c => c < a) g l none with
            | some p => some (M p.2)
            | none => none) := by
  match l with
  | [] => rfl
  | n :: rest =>
    have hn := H n (List.mem_cons_self _ _)
    have Hr : ∀ m ∈ rest, cvIter env s splits m = some (g m, M m) :=
      fun m hm => H m (List.mem_cons_of_mem _ hm)
    rw [cvLoop, hn]
    show cvLoop env s splits rest (some (g n)) (some (M n)) = _
    rw [cvLoop_eq_scan env s splits g M rest Hr (g n) n]
    rfl

/-- np.average on a nonempty score list is the arithmetic mean. -/
theorem npAverage_ne_nil {l : List ℚ} (h : l ≠ []) :
    npAverage l = some (l.sum / (l.length : ℚ)) := by
  match l with
  | [] => exact absurd rfl h
  | a :: t => rfl

/-- A foldl that keeps only the last element, applied under some and f,
computes f of the last element (any default). -/
theorem foldl_keep_last {α β : Type _} (f : α → β) :
    ∀ (l : List α) (d : α) (prev : Option β), l ≠ [] →
      l.foldl (fun _x a => some (f a)) prev = some (f (lastD l d)) := by
  intro l
  induction l with
  | nil => intro d prev h; exact absurd rfl h
  | cons a rest ih =>
    intro d prev _
    show rest.foldl (fun _x a => some (f a)) (some (f a)) = some (f (lastD (a :: rest) d))
    have hlast : lastD (a :: rest) d = lastD rest a := rfl
    rw [hlast]
    match rest with
    | [] => rfl
    | b :: t => exact ih a (some (f a)) (by simp)

/-- The last element of a mapped range is the image of k - 1. -/
theorem lastD_map_range {β : Type _} (f : ℕ → β) :
    ∀ (k : ℕ), 1 ≤ k → ∀ (d : β), lastD ((List.range k).map f) d = f (k - 1) := by
  intro k hk d
  match k, hk with
  | (j + 1), _ =>
    rw [List.range_succ, List.map_append]
    show (((List.range j).map f) ++ [f j]).foldl (fun _x a => a) d = f (j + 1 - 1)
    rw [List.foldl_append]
    rfl

/-- When every fold of the list fits and scores successfully, the CV fold loop
returns the held-out scores in fold order together with the model fitted on
the training split of the last fold processed. -/
theorem cvFoldLoop_ok (env : Env) (s : Selector) (n : ℕ)
    (g : List ℕ × List ℕ → ℚ) :
    ∀ (folds : List (List ℕ × List ℕ)) (prev : Option Model),
      (∀ fd ∈ folds,
        env.fitOK n (combine_sequences fd.1 s.sequences).1
          (combine_sequences fd.1 s.sequences).2 = true ∧
        env.scoreFn ⟨n, (combine_sequences fd.1 s.sequences).1,
            (combine_sequences fd.1 s.sequences).2⟩
          (combine_sequences fd.2 s.sequences).1
          (combine_sequences fd.2 s.sequences).2 = some (g fd)) →
      cvFoldLoop env s n folds prev =
        some (folds.map g,
          folds.foldl
            (fun _x fd => some (⟨n, (combine_sequences fd.1 s.sequences).1,
              (combine_sequences fd.1 s.sequences).2⟩ : Model)) prev) := by
  intro folds
  induction folds with
  | nil => intro prev _; rfl
  | cons fd rest ih =>
    intro prev H
    obtain ⟨tr_idx, te_idx⟩ := fd
    obtain ⟨hfit, hsc⟩ := H _ (List.mem_cons_self _ _)
    have Hr := fun fd' hm => H fd' (List.mem_cons_of_mem _ hm)
    rw [cvFoldLoop]
    simp only at hfit hsc
    have hfit' : fitHMM env n (combine_sequences tr_idx s.sequences).1
          (combine_sequences tr_idx s.sequences).2 =
        some ⟨n, (combine_sequences tr_idx s.sequences).1,
          (combine_sequences tr_idx s.sequences).2⟩ := by
      unfold fitHMM; rw [hfit]; rfl
    simp only [hfit', hsc, ih _ Hr, List.map_cons, List.foldl_cons]

/-- The number of folds equals the requested number of splits. -/
theorem kfoldFolds_length (m k : ℕ) : (kfoldFolds m k).length = k := by
  rw [kfoldFolds, List.length_map, List.length_range]

/-- The fold list SelectorCV iterates is nonempty when the category has at
least two sequences. -/
theorem cvFoldsOf_ne_nil {s : Selector} (h2 : 2 ≤ s.sequences.length) :
    cvFoldsOf s ≠ [] := by
  intro h
  have h1 : (cvFoldsOf s).length = 0 := by rw [h]; rfl
  rw [cvFoldsOf, kfoldFolds_length] at h1
  omega

/-- Characterisation of a CV iteration when the category has at least two
sequences and every fold of the candidate fits and scores: the iteration
returns the average held-out score together with the model fitted on the last
fold training split. -/
theorem cvIter_ok (env : Env) (s : Selector) (g : ℕ → List ℕ × List ℕ → ℚ)
    (n : ℕ) (h2 : 2 ≤ s.sequences.length)
    (Hn : ∀ fd ∈ cvFoldsOf s,
      env.fitOK n (combine_sequences fd.1 s.sequences).1
        (combine_sequences fd.1 s.sequences).2 = true ∧
      env.scoreFn ⟨n, (combine_sequences fd.1 s.sequences).1,
          (combine_sequences fd.1 s.sequences).2⟩
        (combine_sequences fd.2 s.sequences).1
        (combine_sequences fd.2 s.sequences).2 = some (g n fd)) :
    cvIter env s (min 3 s.sequences.length) n =
      some (cvAvg s g n, ⟨n, (cvLastTrain s).1, (cvLastTrain s).2⟩) := by
  have hk : 2 ≤ min 3 s.sequences.length := le_min (by norm_num) h2
  have hfolds : kfoldFolds s.sequences.length (min 3 s.sequences.length) = cvFoldsOf s := rfl
  rw [cvIter, if_neg (by omega), hfolds, cvFoldLoop_ok env s n (g n) (cvFoldsOf s) none Hn]
  have hne : cvFoldsOf s ≠ [] := cvFoldsOf_ne_nil h2
  have hmapne : (cvFoldsOf s).map (g n) ≠ [] := by
    intro h
    exact hne (List.map_eq_nil_iff.mp h)
  rw [show ((cvFoldsOf s).map (g n)) = ((cvFoldsOf s).map (g n)) from rfl]
  simp only [npAverage_ne_nil hmapne]
  rw [foldl_keep_last
    (fun fd => (⟨n, (combine_sequences fd.1 s.sequences).1,
      (combine_sequences fd.1 s.sequences).2⟩ : Model)) (cvFoldsOf s) ([], []) none hne]
  rfl

/-- Full characterisation of SelectorBIC.select when every candidate of a
valid range fits and scores: it returns the model of the first-encountered
candidate with the strictly smallest score. -/
theorem bic_characterization (env : Env) (s : Selector) (g : ℕ → ℚ) (M : ℕ → Model)
    (h0 : s.min_n ≤ s.max_n)
    (H : ∀ n, s.min_n ≤ n → n ≤ s.max_n → bicIter env s n = some (g n, M n)) :
    ∃ b, s.min_n ≤ b ∧ b ≤ s.max_n ∧ selectBIC env s = some (M b) ∧
      (∀ n, s.min_n ≤ n → n ≤ s.max_n → g b ≤ g n) ∧
      (∀ n, s.min_n ≤ n → n ≤ s.max_n → g n = g b → b ≤ n) := by
  have H' : ∀ n ∈ nRange s, bicIter env s n = some (g n, M n) := fun n hn =>
    H n (mem_nRange.mp hn).1 (mem_nRange.mp hn).2
  obtain ⟨j, hj, hrun, hmin, htie⟩ :=
    scanBest_spec (· < ·) (fun a => lt_irrefl a)
      (fun a b c hab hcb hca => hcb (hca.trans hab))
      (fun a b c hab hbc => hab.trans hbc)
      g (nRange s) (nRange_ne_nil h0) (nRange_pairwise s)
  have hloop := bicLoop_none_start env s g M (nRange s) H'
  rw [hrun] at hloop
  refine ⟨j, (mem_nRange.mp hj).1, (mem_nRange.mp hj).2, ?_, ?_, ?_⟩
  · rw [selectBIC, hloop]
  · intro n hn1 hn2
    exact not_lt.mp (hmin n (mem_nRange.mpr ⟨hn1, hn2⟩))
  · intro n hn1 hn2 heq
    exact htie n (mem_nRange.mpr ⟨hn1, hn2⟩) heq

/-- Full characterisation of SelectorCV.select when the category has at least
two sequences and every fold of every candidate of a valid range fits and
scores: it returns the model fitted on the last fold training split of the
first-encountered candidate with the strictly highest average held-out
score. -/
theorem cv_main (env : Env) (s : Selector) (g : ℕ → List ℕ × List ℕ → ℚ)
    (h2 : 2 ≤ s.sequences.length) (h0 : s.min_n ≤ s.max_n)
    (H : ∀ n, s.min_n ≤ n → n ≤ s.max_n → ∀ fd ∈ cvFoldsOf s,
      env.fitOK n (combine_sequences fd.1 s.sequences).1
        (combine_sequences fd.1 s.sequences).2 = true ∧
      env.scoreFn ⟨n, (combine_sequences fd.1 s.sequences).1,
          (combine_sequences fd.1 s.sequences).2⟩
        (combine_sequences fd.2 s.sequences).1
        (combine_sequences fd.2 s.sequences).2 = some (g n fd)) :
    ∃ b, s.min_n ≤ b ∧ b ≤ s.max_n ∧
      selectCV env s = some ⟨b, (cvLastTrain s).1, (cvLastTrain s).2⟩ ∧
      (∀ n, s.min_n ≤ n → n ≤ s.max_n → cvAvg s g n ≤ cvAvg s g b) ∧
      (∀ n, s.min_n ≤ n → n ≤ s.max_n → cvAvg s g n = cvAvg s g b → b ≤ n) := by
  have H' : ∀ n ∈ nRange s,
      cvIter env s (min 3 s.sequences.length) n =
        some (cvAvg s g n, ⟨n, (cvLastTrain s).1, (cvLastTrain s).2⟩) := fun n hn =>
    cvIter_ok env s g n h2 (H n (mem_nRange.mp hn).1 (mem_nRange.mp hn).2)
  obtain ⟨j, hj, hrun, hmax, htie⟩ :=
    scanBest_spec (fun a c => c < a) (fun a => lt_irrefl a)
      (fun a b c hab hcb hca => hcb (hab.trans hca))
      (fun a b c hab hbc => hbc.trans hab)
      (cvAvg s g) (nRange s) (nRange_ne_nil h0) (nRange_pairwise s)
  have hloop := cvLoop_none_start env s (min 3 s.sequences.length) (cvAvg s g)
    (fun n => ⟨n, (cvLastTrain s).1, (cvLastTrain s).2⟩) (nRange s) H'
  rw [hrun] at hloop
  refine ⟨j, (mem_nRange.mp hj).1, (mem_nRange.mp hj).2, ?_, ?_, ?_⟩
  · rw [selectCV]
    show (match cvLoop env s (min 3 s.sequences.length) (nRange s) none none with
          | some best_model => best_model
          | none => base_model env s s.n_constant) = _
    rw [hloop]
  · intro n hn1 hn2
    exact not_lt.mp (hmax n (mem_nRange.mpr ⟨hn1, hn2⟩))
  · intro n hn1 hn2 heq
    exact htie n (mem_nRange.mpr ⟨hn1, hn2⟩) heq

/-- With an invalid range min_n > max_n the candidate list is empty. -/
theorem nRange_nil {s : Selector} (h : s.max_n < s.min_n) : nRange s = [] := by
  rw [nRange, Nat.sub_eq_zero_of_le (by omega)]
  rfl

/-- The training split of the last fold contains strictly fewer sequences
than the category has: the held-out block of the last fold is nonempty, so a
model fitted on that split was trained on a proper subset of the category
sequences, not on the full dataset. -/
theorem cvLastTrain_shorter (s : Selector) (h2 : 2 ≤ s.sequences.length) :
    (cvLastTrain s).2.length < s.sequences.length := by
  set m := s.sequences.length with hm
  set k := min 3 m with hk
  have hk2 : 2 ≤ k := le_min (by norm_num) h2
  have hkm : k ≤ m := min_le_right _ _
  have hlast : cvLastFold s = kfoldFold m k (k - 1) := by
    rw [cvLastFold, cvFoldsOf, kfoldFolds]
    exact lastD_map_range (kfoldFold m k) k (by omega) ([], [])
  have hq1 : 1 ≤ m / k := (Nat.one_le_div_iff (by omega)).mpr hkm
  have hrk : m % k < k := Nat.mod_lt _ (by omega)
  have hdm : k * (m / k) + m % k = m := Nat.div_add_mod m k
  have hAB : (k - 1) * (m / k) + m / k = k * (m / k) := by
    have hq : m / k ≤ k * (m / k) := Nat.le_mul_of_pos_left _ (by omega)
    rw [Nat.sub_one_mul]
    omega
  have hminr : min (k - 1) (m % k) = m % k := min_eq_right (by omega)
  have hite : (if k - 1 < m % k then 1 else 0) = 0 := if_neg (by omega)
  have htrain : (kfoldFold m k (k - 1)).1 =
      (List.range m).filter (fun j =>
        decide (j < (k - 1) * (m / k) + min (k - 1) (m % k) ∨
          ((k - 1) * (m / k) + min (k - 1) (m % k)) +
            (m / k + if k - 1 < m % k then 1 else 0) ≤ j)) := rfl
  have hlen2 : (cvLastTrain s).2.length = (cvLastFold s).1.length := by
    show ((cvLastFold s).1.map (fun i => (s.sequences.getD i []).length)).length = _
    rw [List.length_map]
  rw [hlen2, hlast, htrain, hminr, hite]
  set start := (k - 1) * (m / k) + m % k with hstartdef
  have hstart : start < m := by omega
  have hmem : start ∈ List.range m := List.mem_range.mpr hstart
  have hpfalse :
      (decide (start < start ∨ start + (m / k + 0) ≤ start)) = false := by
    rw [decide_eq_false_iff_not]
    push_neg
    omega
  have hsub := List.filter_sublist (p := fun j =>
      decide (j < start ∨ start + (m / k + 0) ≤ j)) (List.range m)
  have hle := hsub.length_le
  rcases lt_or_eq_of_le hle with hlt | heq
  · rw [List.length_range] at hlt
    exact hlt
  · exfalso
    have heqlist := hsub.eq_of_length heq
    have : start ∈ (List.range m).filter (fun j =>
        decide (j < start ∨ start + (m / k + 0) ≤ j)) := by
      rw [heqlist]; exact hmem
    have := (List.mem_filter.mp this).2
    rw [hpfalse] at this
    exact absurd this (by simp)

/-- Any model carried out of the CV fold loop was fitted at the current
candidate state count. -/
theorem cvFoldLoop_model (env : Env) (s : Selector) (n : ℕ) :
    ∀ (folds : List (List ℕ × List ℕ)) (prev : Option Model),
      (∀ mdl, prev = some mdl → mdl.nStates = n) →
      ∀ res, cvFoldLoop env s n folds prev = some res →
      ∀ mdl, res.2 = some mdl → mdl.nStates = n := by
  intro folds
  induction folds with
  | nil =>
    intro prev hprev res hres mdl hmdl
    have hr : ([], prev) = res := Option.some.inj hres
    rw [← hr] at hmdl
    exact hprev mdl hmdl
  | cons fd rest ih =>
    intro prev hprev res hres mdl hmdl
    obtain ⟨tr_idx, te_idx⟩ := fd
    rw [cvFoldLoop] at hres
    cases hf : fitHMM env n (combine_sequences tr_idx s.sequences).1
        (combine_sequences tr_idx s.sequences).2 with
    | none => simp [hf] at hres
    | some mm =>
      simp only [hf] at hres
      cases hs : env.scoreFn mm (combine_sequences te_idx s.sequences).1
          (combine_sequences te_idx s.sequences).2 with
      | none => simp [hs] at hres
      | some logL =>
        simp only [hs] at hres
        cases hrec : cvFoldLoop env s n rest (some mm) with
        | none => simp [hrec] at hres
        | some pr =>
          simp only [hrec] at hres
          obtain ⟨scores, last⟩ := pr
          have hmm : mm.nStates = n := by rw [fitHMM_eq hf]
          have hr : (logL :: scores, last) = res := Option.some.inj hres
          have hlast : last = some mdl := by rw [← hr] at hmdl; exact hmdl
          exact ih (some mm)
            (fun mdl' h' => by rw [← Option.some.inj h']; exact hmm)
            (scores, last) hrec mdl hlast

/-- Any model returned by a successful CV iteration was fitted at the current
candidate state count. -/
theorem cvIter_model (env : Env) (s : Selector) (splits n : ℕ) (p : ℚ × Model)
    (h : cvIter env s splits n = some p) : p.2.nStates = n := by
  rw [cvIter] at h
  by_cases hsp : splits ≤ 1
  · rw [if_pos hsp] at h; exact absurd h (by simp)
  · rw [if_neg hsp] at h
    cases hfl : cvFoldLoop env s n (kfoldFolds s.sequences.length splits) none with
    | none => simp [hfl] at h
    | some res =>
      simp only [hfl] at h
      obtain ⟨scores, base_hmm⟩ := res
      cases hav : npAverage scores with
      | none => simp [hav] at h
      | some score =>
        simp only [hav] at h
        cases base_hmm with
        | none => simp at h
        | some mdl =>
          simp only [Option.some.injEq] at h
          have h2 : p.2 = mdl := by rw [← h]
          rw [h2]
          exact cvFoldLoop_model env s n _ none (by intro mdl' h'; simp at h')
            (scores, some mdl) hfl mdl rfl

/-- Claim C1 (amended): select() never raises (each strategy is a total
function here), and any model it returns was fitted either at some candidate
in [min_n, max_n] or at n_constant, so its state count lies in the range or
equals n_constant; however the result can also be the None sentinel, in
particular SelectorConstant.select() returns None when fitting at n_constant
fails. -/
theorem C1_theorem (env : Env) (s : Selector) (m : Model)
    (h : selectConstant env s = some m ∨ selectBIC env s = some m ∨
         selectDIC env s = some m ∨ selectCV env s = some m) :
    (s.min_n ≤ m.nStates ∧ m.nStates ≤ s.max_n) ∨ m.nStates = s.n_constant := by
  have hbase : ∀ k, base_model env s k = some m → m.nStates = k := by
    intro k hk
    rw [fitHMM_eq hk]
  rcases h with h | h | h | h
  · exact Or.inr (hbase _ h)
  · rw [selectBIC] at h
    cases hbl : bicLoop env s (nRange s) none none with
    | none => simp only [hbl] at h; exact Or.inr (hbase _ h)
    | some r =>
      simp only [hbl] at h
      rcases bicLoop_models env s _ _ _ _ hbl with rfl | ⟨n, hn, p, hp, hr⟩
      · exact absurd h (by simp)
      · rw [hr] at h
        have hm : m = p.2 := (Option.some.inj h).symm
        have hnn : m.nStates = n := by rw [hm, bicIter_model hp]
        rw [hnn]
        exact Or.inl (mem_nRange.mp hn)
  · rw [selectDIC] at h
    cases hl : nRange s with
    | nil =>
      rw [hl] at h
      simp only [dicLoop] at h
      exact absurd h (by simp)
    | cons n rest =>
      rw [hl] at h
      simp only [dicLoop, dicIter_none] at h
      exact Or.inr (hbase _ h)
  · rw [selectCV] at h
    cases hcl : cvLoop env s (min 3 s.sequences.length) (nRange s) none none with
    | none => simp only [hcl] at h; exact Or.inr (hbase _ h)
    | some r =>
      simp only [hcl] at h
      rcases cvLoop_models env s _ _ _ _ _ hcl with rfl | ⟨n, hn, p, hp, hr⟩
      · exact absurd h (by simp)
      · rw [hr] at h
        have hm : m = p.2 := (Option.some.inj h).symm
        have hnn : m.nStates = n := by rw [hm, cvIter_model _ _ _ _ _ hp]
        rw [hnn]
        exact Or.inl (mem_nRange.mp hn)

/-- Claim C1, counterexample to the claim as stated: with a fitter that always
fails, every one of the four strategies returns the None sentinel from
select() — in particular SelectorConstant.select() does NOT return a non-null
model when fitting at n_constant fails. -/
theorem C1_counterexample :
    selectConstant envNone selBook = none ∧ selectBIC envNone selBook = none ∧
    selectDIC envNone selBook = none ∧ selectCV envNone selBook = none :=
  ⟨rfl, rfl, rfl, rfl⟩

/-- Claim C1, witness instantiating the amended theorem at a concrete
successful input. -/
theorem C1_witness :
    (selBook.min_n ≤ (Model.mk 3 wdBook.X wdBook.lengths).nStates ∧
      (Model.mk 3 wdBook.X wdBook.lengths).nStates ≤ selBook.max_n) ∨
      (Model.mk 3 wdBook.X wdBook.lengths).nStates = selBook.n_constant :=
  C1_theorem envAll selBook ⟨3, wdBook.X, wdBook.lengths⟩ (Or.inl rfl)

/-- Claim C7 (amended): SelectorConstant.select() returns base_model(n_constant)
with no search and no scoring: whenever it returns a model that model has
exactly n_constant states, and the result depends only on whether fitting at
n_constant succeeds — never on other candidates or on the scoring oracle
(which is why two environments agreeing on fitting at n_constant on the
category data give the same result). When fitting at n_constant fails it
returns the None sentinel instead of a model. -/
theorem C7_theorem (env : Env) (s : Selector) :
    (∀ m : Model, selectConstant env s = some m → m.nStates = s.n_constant) ∧
    (∀ env2 : Env,
      env2.fitOK s.n_constant s.X s.lengths = env.fitOK s.n_constant s.X s.lengths →
      selectConstant env2 s = selectConstant env s) := by
  constructor
  · intro m hm
    rw [fitHMM_eq hm]
  · intro env2 hagree
    rw [selectConstant, selectConstant, base_model, base_model, fitHMM, fitHMM, hagree]

/-- Claim C7, counterexample to the claim as stated: when fitting at
n_constant fails, SelectorConstant.select() returns the None sentinel, not a
model with n_constant states. -/
theorem C7_counterexample : selectConstant envNone selBook = none := rfl

/-- Claim C7, witness applying the amended theorem at a concrete input. -/
theorem C7_witness : (Model.mk 3 wdBook.X wdBook.lengths).nStates = selBook.n_constant :=
  (C7_theorem envAll selBook).1 ⟨3, wdBook.X, wdBook.lengths⟩ rfl

/-- Claim C9: on every valid-range input where base_model(n_constant)
succeeds, SelectorDIC.select() returns exactly that model and is extensionally
the same function as SelectorConstant.select(): its dic_score expression
subtracts np.mean of the model object itself, so every loop iteration raises
and control always reaches the constant fallback. -/
theorem C9_theorem (env : Env) (s : Selector) (m : Model)
    (h0 : s.min_n ≤ s.max_n) (hm : base_model env s s.n_constant = some m) :
    selectDIC env s = some m ∧ selectDIC env s = selectConstant env s := by
  have h := dic_eq_constant env s h0
  exact ⟨by rw [h, selectConstant]; exact hm, h⟩

/-- Claim C9, witness at a concrete input where all fits succeed. -/
theorem C9_witness :
    selectDIC envAll selBook = some ⟨3, wdBook.X, wdBook.lengths⟩ ∧
    selectDIC envAll selBook = selectConstant envAll selBook :=
  C9_theorem envAll selBook ⟨3, wdBook.X, wdBook.lengths⟩ (by decide) rfl

/-- Claim C2, code evaluation at the failing input: with every fit and every
score succeeding (envAll, category BOOK of a two-word corpus, range [2, 4]),
the per-other-word scores of the first candidate are collected fine, yet the
candidate iteration raises (the dic_score expression is a TypeError on the
model object), and SelectorDIC.select() returns the constant fallback model
instead of the claimed argmax-DIC model. -/
theorem C2_theorem :
    dicOtherScores envAll selBook (base_model envAll selBook 2) corpus2 = some [2] ∧
    dicIter envAll selBook 2 = none ∧
    selectDIC envAll selBook = some ⟨3, wdBook.X, wdBook.lengths⟩ := by
  refine ⟨?_, dicIter_none envAll selBook 2, ?_⟩
  · norm_num [dicOtherScores, selBook, corpus2, wdChoc, wdBook, base_model,
      fitHMM, envAll]
    decide
  · rw [dic_eq_constant envAll selBook (by decide)]
    rfl

/-- Claim C8 (amended): an invalid range min_n > max_n surfaces no error to
the caller: the candidate list is empty, the search loops run zero iterations
and never set best_model, and SelectorBIC, SelectorDIC and SelectorCV each
silently return the None sentinel from select(), indistinguishable from an
all-fits-failed search. -/
theorem C8_theorem (env : Env) (s : Selector) (h : s.max_n < s.min_n) :
    selectBIC env s = none ∧ selectDIC env s = none ∧ selectCV env s = none := by
  have hr := nRange_nil h
  refine ⟨?_, ?_, ?_⟩
  · simp [selectBIC, hr, bicLoop]
  · simp [selectDIC, hr, dicLoop]
  · simp [selectCV, hr, cvLoop]

/-- Claim C8, counterexample to the claim as stated: with min_n = 5 > 2 =
max_n and a fitter that always succeeds, SelectorBIC and SelectorCV return
normally with the None sentinel — the configuration error is silently
swallowed, not surfaced. -/
theorem C8_counterexample :
    selectBIC envAll selBookBad = none ∧ selectCV envAll selBookBad = none :=
  ⟨rfl, rfl⟩

/-- Claim C8, witness applying the amended theorem at the concrete invalid
range. -/
theorem C8_witness :
    selectBIC envAll selBookBad = none ∧ selectDIC envAll selBookBad = none ∧
    selectCV envAll selBookBad = none :=
  C8_theorem envAll selBookBad (by decide)

/-- Claim C4 (amended): in SelectorBIC.select(), a fitting failure at any one
candidate n in [min_n, max_n] (base_model returning the no-model sentinel)
makes the scoring of that sentinel raise inside the single try-block, which
aborts the WHOLE search: select() returns base_model(n_constant), it does not
keep scoring the remaining candidates. -/
theorem C4_theorem (env : Env) (s : Selector) (n0 : ℕ)
    (h1 : s.min_n ≤ n0) (h2 : n0 ≤ s.max_n)
    (hfail : env.fitOK n0 s.X s.lengths = false) :
    selectBIC env s = base_model env s s.n_constant := by
  have hmem : n0 ∈ nRange s := mem_nRange.mpr ⟨h1, h2⟩
  have hiter : bicIter env s n0 = none := by
    rw [bicIter, base_model, fitHMM, hfail]
    rfl
  rw [selectBIC, bicLoop_none_of_fail env s _ _ _ ⟨n0, hmem, hiter⟩]

/-- Claim C4, counterexample to the claim as stated: fitting fails only at
n = 2, candidates 3 and 4 fit and score, candidate 4 has the strictly lowest
BIC (-20 < 0), yet select() returns the fallback model with 3 = n_constant
states: the failure at n = 2 aborted the whole search instead of excluding
only that candidate. -/
theorem C4_counterexample :
    selectBIC envSkip2 selBook = some ⟨3, wdBook.X, wdBook.lengths⟩ ∧
    bicIter envSkip2 selBook 3 = some (0, ⟨3, wdBook.X, wdBook.lengths⟩) ∧
    bicIter envSkip2 selBook 4 = some (-20, ⟨4, wdBook.X, wdBook.lengths⟩) ∧
    (-20 : ℚ) < 0 := by
  refine ⟨rfl, ?_, ?_, by norm_num⟩
  · norm_num [bicIter, base_model, fitHMM, envSkip2, selBook, wdBook]
  · norm_num [bicIter, base_model, fitHMM, envSkip2, selBook, wdBook]

/-- Claim C4, witness applying the amended theorem at the concrete partial
failure input. -/
theorem C4_witness :
    selectBIC envSkip2 selBook = base_model envSkip2 selBook selBook.n_constant :=
  C4_theorem envSkip2 selBook 2 (by decide) (by decide) rfl

/-- Claim C6 (amended): if the fitter fails at every state count other than
n_constant, then on a valid range SelectorBIC and SelectorDIC return the same
model as SelectorConstant, and so does SelectorCV provided some candidate of
[min_n, max_n] differs from n_constant; in the remaining degenerate
configuration min_n = max_n = n_constant, SelectorCV can instead finish its
search and return the model fitted on the last fold training split, which is
not the constant model (see the counterexample). -/
theorem C6_theorem (env : Env) (s : Selector)
    (hstub : ∀ n x l, n ≠ s.n_constant → env.fitOK n x l = false)
    (h0 : s.min_n ≤ s.max_n)
    (hex : ∃ n, s.min_n ≤ n ∧ n ≤ s.max_n ∧ n ≠ s.n_constant) :
    selectBIC env s = selectConstant env s ∧
    selectDIC env s = selectConstant env s ∧
    selectCV env s = selectConstant env s := by
  obtain ⟨n', h1, h2, hne⟩ := hex
  have hmem : n' ∈ nRange s := mem_nRange.mpr ⟨h1, h2⟩
  refine ⟨?_, dic_eq_constant env s h0, ?_⟩
  · have hiter : bicIter env s n' = none := by
      rw [bicIter, base_model, fitHMM, hstub n' s.X s.lengths hne]
      rfl
    rw [selectBIC, bicLoop_none_of_fail env s _ _ _ ⟨n', hmem, hiter⟩]
    rfl
  · have hiter : cvIter env s (min 3 s.sequences.length) n' = none := by
      rw [cvIter]
      by_cases hsp : min 3 s.sequences.length ≤ 1
      · rw [if_pos hsp]
      · rw [if_neg hsp]
        cases hfolds : kfoldFolds s.sequences.length (min 3 s.sequences.length) with
        | nil =>
          exfalso
          have hlen := kfoldFolds_length s.sequences.length (min 3 s.sequences.length)
          rw [hfolds] at hlen
          simp at hlen
          omega
        | cons fd rest =>
          obtain ⟨tr_idx, te_idx⟩ := fd
          rw [cvFoldLoop]
          have hf : fitHMM env n' (combine_sequences tr_idx s.sequences).1
              (combine_sequences tr_idx s.sequences).2 = none := by
            rw [fitHMM, hstub n' _ _ hne]
            rfl
          simp [hf]
    show (match cvLoop env s (min 3 s.sequences.length) (nRange s) none none with
          | some best_model => best_model
          | none => base_model env s s.n_constant) = selectConstant env s
    rw [cvLoop_none_of_fail env s _ _ _ _ ⟨n', hmem, hiter⟩]
    rfl

/-- Claim C6, counterexample to the claim as stated: with the stub fitter
that succeeds only at 3 states (envOnly3) and the configuration
min_n = max_n = n_constant = 3, SelectorCV completes its search and returns
the model fitted on the last fold training split (the single sequence [[1]]),
while SelectorConstant returns the model fitted on the full category data —
two different models. -/
theorem C6_counterexample :
    selectCV envOnly3 selBook333 = some ⟨3, [[1]], [1]⟩ ∧
    selectConstant envOnly3 selBook333 = some ⟨3, wdBook.X, wdBook.lengths⟩ ∧
    selectCV envOnly3 selBook333 ≠ selectConstant envOnly3 selBook333 := by
  refine ⟨rfl, rfl, ?_⟩
  intro h
  have h' : (⟨3, [[1]], [1]⟩ : Model) = ⟨3, wdBook.X, wdBook.lengths⟩ :=
    Option.some.inj h
  have := congrArg Model.trainX h'
  simp [wdBook] at this

/-- Claim C6, witness applying the amended theorem with the stub fitter on
the standard range [2, 4] with n_constant = 3. -/
theorem C6_witness :
    selectBIC envOnly3 selBook = selectConstant envOnly3 selBook ∧
    selectDIC envOnly3 selBook = selectConstant envOnly3 selBook ∧
    selectCV envOnly3 selBook = selectConstant envOnly3 selBook :=
  C6_theorem envOnly3 selBook (fun n x l h => decide_eq_false h) (by decide)
    ⟨2, by decide, by decide, by decide⟩

/-- Claim C3: for every n in a valid range [min_n, max_n], when every
candidate fits and scores, SelectorBIC computes
BIC(n) = -2*logL(n) + p(n)*log(N) with N = len(X) (the total observation
frame count) and p(n) = n^2 + 2*n*d - 1 (d = len(X[0]), the feature
dimensionality), and select() returns the model of the n with the lowest BIC,
replacing the incumbent only on a strictly lower score, so the
first-encountered n wins ties. -/
theorem C3_theorem (env : Env) (s : Selector) (logL : ℕ → ℚ) (x0 : List ℚ)
    (h0 : s.min_n ≤ s.max_n)
    (hx : s.X.head? = some x0)
    (hfit : ∀ n, s.min_n ≤ n → n ≤ s.max_n → env.fitOK n s.X s.lengths = true)
    (hsc : ∀ n, s.min_n ≤ n → n ≤ s.max_n →
      env.scoreFn ⟨n, s.X, s.lengths⟩ s.X s.lengths = some (logL n)) :
    ∃ b, s.min_n ≤ b ∧ b ≤ s.max_n ∧
      selectBIC env s = some ⟨b, s.X, s.lengths⟩ ∧
      (∀ n, s.min_n ≤ n → n ≤ s.max_n →
        bicFormula env s logL x0.length b ≤ bicFormula env s logL x0.length n) ∧
      (∀ n, s.min_n ≤ n → n ≤ s.max_n →
        bicFormula env s logL x0.length n = bicFormula env s logL x0.length b →
          b ≤ n) := by
  have H : ∀ n, s.min_n ≤ n → n ≤ s.max_n →
      bicIter env s n =
        some (bicFormula env s logL x0.length n, ⟨n, s.X, s.lengths⟩) := by
    intro n hn1 hn2
    have hb : base_model env s n = some ⟨n, s.X, s.lengths⟩ := by
      rw [base_model, fitHMM, hfit n hn1 hn2]
      rfl
    rw [bicIter, hb]
    simp [hsc n hn1 hn2, hx, bicFormula]
  exact bic_characterization env s (bicFormula env s logL x0.length)
    (fun n => ⟨n, s.X, s.lengths⟩) h0 H

/-- Claim C3, witness: with the oracle that scores a model as its state count
and np.log as 0, BIC(n) = -2n on the range [2, 4]; the theorem applies and
yields the selected candidate with its minimality properties. -/
theorem C3_witness :
    ∃ b, selBook.min_n ≤ b ∧ b ≤ selBook.max_n ∧
      selectBIC envAll selBook = some ⟨b, selBook.X, selBook.lengths⟩ ∧
      (∀ n, selBook.min_n ≤ n → n ≤ selBook.max_n →
        bicFormula envAll selBook (fun k => (k : ℚ)) 1 b ≤
          bicFormula envAll selBook (fun k => (k : ℚ)) 1 n) ∧
      (∀ n, selBook.min_n ≤ n → n ≤ selBook.max_n →
        bicFormula envAll selBook (fun k => (k : ℚ)) 1 n =
          bicFormula envAll selBook (fun k => (k : ℚ)) 1 b → b ≤ n) :=
  C3_theorem envAll selBook (fun k => (k : ℚ)) [1] (by decide) rfl
    (fun n _ _ => rfl) (fun n _ _ => rfl)

/-- Claim C5: for every n in a valid range, SelectorCV performs k-fold
cross-validation with k = min(3, number of sequences): per fold it fits on
the combined training-fold sequences only and scores the combined held-out
fold, averages the held-out log-likelihoods over the folds (cvAvg), and
select() returns the model kept for the first-encountered n maximising this
average (requires at least 2 sequences, otherwise KFold construction raises
and the search falls back). -/
theorem C5_theorem (env : Env) (s : Selector) (g : ℕ → List ℕ × List ℕ → ℚ)
    (h2 : 2 ≤ s.sequences.length) (h0 : s.min_n ≤ s.max_n)
    (H : ∀ n, s.min_n ≤ n → n ≤ s.max_n → ∀ fd ∈ cvFoldsOf s,
      env.fitOK n (combine_sequences fd.1 s.sequences).1
        (combine_sequences fd.1 s.sequences).2 = true ∧
      env.scoreFn ⟨n, (combine_sequences fd.1 s.sequences).1,
          (combine_sequences fd.1 s.sequences).2⟩
        (combine_sequences fd.2 s.sequences).1
        (combine_sequences fd.2 s.sequences).2 = some (g n fd)) :
    ∃ b, s.min_n ≤ b ∧ b ≤ s.max_n ∧
      selectCV env s = some ⟨b, (cvLastTrain s).1, (cvLastTrain s).2⟩ ∧
      (∀ n, s.min_n ≤ n → n ≤ s.max_n → cvAvg s g n ≤ cvAvg s g b) ∧
      (∀ n, s.min_n ≤ n → n ≤ s.max_n → cvAvg s g n = cvAvg s g b → b ≤ n) :=
  cv_main env s g h2 h0 H

/-- Claim C5, witness: with the oracle scoring every model as its state
count, the average held-out score of candidate n is n, and the theorem
applies on selBook. -/
theorem C5_witness :
    ∃ b, selBook.min_n ≤ b ∧ b ≤ selBook.max_n ∧
      selectCV envAll selBook =
        some ⟨b, (cvLastTrain selBook).1, (cvLastTrain selBook).2⟩ ∧
      (∀ n, selBook.min_n ≤ n → n ≤ selBook.max_n →
        cvAvg selBook (fun k _ => (k : ℚ)) n ≤ cvAvg selBook (fun k _ => (k : ℚ)) b) ∧
      (∀ n, selBook.min_n ≤ n → n ≤ selBook.max_n →
        cvAvg selBook (fun k _ => (k : ℚ)) n = cvAvg selBook (fun k _ => (k : ℚ)) b →
          b ≤ n) :=
  C5_theorem envAll selBook (fun k _ => (k : ℚ)) (by decide) (by decide)
    (fun n _ _ fd _ => ⟨rfl, rfl⟩)

/-- Claim C10: when SelectorCV completes its search without falling back (all
folds of all candidates of a valid range fit and score, at least 2
sequences), the returned model is the one fitted on the combined training
split of the LAST fold of the best n — trained on strictly fewer sequences
than the category has, hence on a proper subset, not refit on the full
dataset — even though the score that won was averaged over all folds. -/
theorem C10_theorem (env : Env) (s : Selector) (g : ℕ → List ℕ × List ℕ → ℚ)
    (h2 : 2 ≤ s.sequences.length) (h0 : s.min_n ≤ s.max_n)
    (H : ∀ n, s.min_n ≤ n → n ≤ s.max_n → ∀ fd ∈ cvFoldsOf s,
      env.fitOK n (combine_sequences fd.1 s.sequences).1
        (combine_sequences fd.1 s.sequences).2 = true ∧
      env.scoreFn ⟨n, (combine_sequences fd.1 s.sequences).1,
          (combine_sequences fd.1 s.sequences).2⟩
        (combine_sequences fd.2 s.sequences).1
        (combine_sequences fd.2 s.sequences).2 = some (g n fd)) :
    ∃ b, s.min_n ≤ b ∧ b ≤ s.max_n ∧
      selectCV env s = some ⟨b, (cvLastTrain s).1, (cvLastTrain s).2⟩ ∧
      (cvLastTrain s).2.length < s.sequences.length := by
  obtain ⟨b, hb1, hb2, hsel, _, _⟩ := cv_main env s g h2 h0 H
  exact ⟨b, hb1, hb2, hsel, cvLastTrain_shorter s h2⟩

/-- Claim C10, witness at the concrete selBook input: the returned model is
trained on the last fold training split, which has fewer sequences than the
category. -/
theorem C10_witness :
    ∃ b, selBook.min_n ≤ b ∧ b ≤ selBook.max_n ∧
      selectCV envAll selBook =
        some ⟨b, (cvLastTrain selBook).1, (cvLastTrain selBook).2⟩ ∧
      (cvLastTrain selBook).2.length < selBook.sequences.length :=
  C10_theorem envAll selBook (fun k _ => (k : ℚ)) (by decide) (by decide)
    (fun n _ _ fd _ => ⟨rfl, rfl⟩)
